import Mathlib

/-!
Verification development for the escalation engine of the
incident-management backend.

The definitions below are a shallow embedding of the Python source:

* `app/models/incident.py`, `app/models/user.py`, `app/models/escalation.py`
  give the data model (`Incident`, `User`, `EscalationPolicy`,
  `EscalationEvent`).
* `app/services/escalation_service.py` gives the manual evaluator
  (`check_and_escalate_incident`, `process_escalation_policy`,
  `_policy_matches_incident`, `_get_escalation_targets`, the per-action
  handlers).
* `scripts/escalation_processor.py` gives the periodic sweep
  (`process_policy_escalations`, `process_escalation_step`, the
  tracking handlers, `get_processed_escalation_steps`,
  `get_notified_users_for_step`).
* `app/schemas/escalation.py` gives the policy-authoring validator
  (`validate_steps`).
* `alembic/versions/20240819_add_escalation_models.py` gives the
  persisted index layout of the `escalation_events` table.

Timestamps are modelled as integer minutes; the database session is
modelled as an explicit `EngineState` threaded through the functions;
Python exceptions are modelled with `Except String`.
-/

namespace Escalation

/-- `IncidentStatus` from `app/models/incident.py`. -/
inductive IncidentStatus
  | triggered
  | acknowledged
  | resolved
  | snoozed
  deriving DecidableEq, Repr

/-- `UserRole` from `app/models/user.py`. -/
inductive UserRole
  | user
  | oncall_engineer
  | team_lead
  | manager
  | vp
  | cto
  | admin
  deriving DecidableEq, Repr

/-- `User` row from `app/models/user.py` (the fields the engine reads). -/
structure User where
  id : Int
  email : String
  full_name : String
  role : UserRole
  team_id : Option Int
  is_active : Bool
  deriving DecidableEq, Repr

/-- `Incident` row from `app/models/incident.py` (the fields the engine
reads).  `severity` holds the enum's string value; `created_at` is in
minutes. -/
structure Incident where
  id : Int
  title : String
  status : IncidentStatus
  severity : String
  service : String
  team_id : Option Int
  created_at : Int
  deriving DecidableEq, Repr

/-- A JSON condition value that is either a single string or a list of
strings, as `_policy_matches_incident` distinguishes with
`isinstance(..., str)`. -/
inductive StrCond
  | one (s : String)
  | many (l : List String)
  deriving DecidableEq, Repr

/-- A JSON `team_id` condition value: a single integer or a list of
integers (`isinstance(team_id_value, list)`). -/
inductive IntCond
  | one (n : Int)
  | many (l : List Int)
  deriving DecidableEq, Repr

/-- The `conditions` JSON mapping of a policy.  The code inspects only the
keys `severity`, `service` and `team_id`; `none` models absence of the
key from the dict. -/
structure Conditions where
  severity : Option StrCond := none
  service : Option StrCond := none
  team_id : Option IntCond := none
  deriving DecidableEq, Repr

/-- One action dict inside a step.  `none` on a field models absence of
the corresponding key (`action.get(...)`). -/
structure Action where
  type : Option String := none
  message : Option String := none
  recipients : Option (List String) := none
  target : Option String := none
  target_roles : List String := []
  status : Option String := none
  deriving DecidableEq, Repr

/-- One step dict of a policy: `step.get("delay_minutes", 0)` and
`step.get("actions", [])`. -/
structure Step where
  delay_minutes : Option Int := none
  actions : List Action := []
  deriving DecidableEq, Repr

/-- `EscalationPolicy` row from `app/models/escalation.py`. -/
structure EscalationPolicy where
  id : Int
  name : String := ""
  description : String := ""
  conditions : Conditions := {}
  steps : List Step := []
  is_active : Bool := true
  deriving DecidableEq, Repr

/-- Event status strings from `app/schemas/escalation.py`
(`EscalationEventStatus`). -/
inductive EventStatus
  | pending
  | in_progress
  | completed
  | failed
  deriving DecidableEq, Repr

/-- One entry of the `target_users` list stored in event metadata
(`{"id": ..., "name": ..., "email": ..., "role": ...}`). -/
structure TargetUser where
  id : Int
  name : String
  email : String
  role : String
  deriving DecidableEq, Repr

/-- The event `metadata` JSON keys the engine's code mentions.  On
reachable rows only `error` is ever populated: `CRUDBase.create` never
stores the computed metadata payload (see `pendingEventS`), and the
completion-time merge is unreachable (see `eventMetadataAttr`), so the
remaining fields occur only in dead code paths. -/
structure EventMeta where
  policy_name : String := ""
  incident_age_minutes : Int := 0
  delay_minutes : Int := 0
  triggered_for : List String := []
  target_users : List TargetUser := []
  already_notified_users : Option (List Int) := none
  new_notifications : Option Nat := none
  error : Option String := none
  deriving DecidableEq, Repr

/-- `EscalationEvent` row from `app/models/escalation.py`.  The
metadata attribute is named `metadata_` (mapped to the column
`"metadata"`); the model has no `event_metadata` attribute. -/
structure EscalationEvent where
  incident_id : Int
  policy_id : Int
  step : Nat
  status : EventStatus
  metadata_ : EventMeta
  deriving DecidableEq, Repr

/-- `str(e)` of the `AttributeError` raised by `action_type.startswith`
when the action has no `type` key (`action_type` is `None`). -/
def attrErrStartswith : String := "'NoneType' object has no attribute 'startswith'"

/-- `str(e)` of the `AttributeError` raised by reading
`event.metadata_`. -/
def attrErrEventMetadata : String :=
  "'EscalationEvent' object has no attribute 'event_metadata'"

/-- The Python expression `event.metadata_`
(`escalation_service.py` line 218, `escalation_processor.py` lines 79
and 192): the model defines `metadata_`, not `event_metadata`, so the
read always raises `AttributeError`. -/
def eventMetadataAttr (_ev : EscalationEvent) : Except String EventMeta :=
  Except.error attrErrEventMetadata

/-!  ## Python string primitives

Character-level models of the Python string methods the engine calls
(`str.lower`, `str.upper`, `str.startswith`, `str.replace`, `int(...)`),
written structurally so that concrete runs reduce in the kernel.  -/

/-- Python `str.lower()` (ASCII). -/
def pyLower (s : String) : String := String.mk (s.data.map Char.toLower)

/-- Python `str.upper()` (ASCII). -/
def pyUpper (s : String) : String := String.mk (s.data.map Char.toUpper)

/-- Python `str.startswith(pre)`. -/
def pyStartsWith (s pre : String) : Bool := s.data.take pre.data.length == pre.data

/-- The decimal value of an ASCII digit. -/
def digitVal (c : Char) : Option Nat :=
  if 48 ≤ c.toNat ∧ c.toNat ≤ 57 then some (c.toNat - 48) else none

def digitsAux : List Char → Nat → Option Nat
  | [], acc => some acc
  | c :: rest, acc =>
      match digitVal c with
      | some d => digitsAux rest (acc * 10 + d)
      | none => none

/-- A non-empty all-digit character list as a number. -/
def digitsToNat (l : List Char) : Option Nat :=
  match l with
  | [] => none
  | _ => digitsAux l 0

/-- Python `int(s)` on a string: optional sign then decimal digits,
`none` for a `ValueError` (whitespace trimming and underscore grouping
are not modelled; the engine only receives bare descriptors). -/
def pyToInt (s : String) : Option Int :=
  match s.data with
  | '-' :: rest => (digitsToNat rest).map (fun n => -(n : Int))
  | '+' :: rest => (digitsToNat rest).map (fun n => (n : Int))
  | l => (digitsToNat l).map (fun n => (n : Int))

/-- Replace every occurrence of `pat`, resuming after each replacement
as Python does; the fuel is the remaining scan length, and each step
consumes at least one character. -/
def replaceAllAux (pat repl : List Char) : Nat → List Char → List Char
  | _, [] => []
  | 0, s => s
  | fuel + 1, c :: rest =>
      if (c :: rest).take pat.length == pat then
        repl ++ replaceAllAux pat repl fuel ((c :: rest).drop pat.length)
      else c :: replaceAllAux pat repl fuel rest

/-- Python `str.replace(pat, repl)`.  The engine only calls this with
the literal pattern `notify_`, so the empty-pattern edge (where Python
interleaves `repl` everywhere) is left as the identity. -/
def pyReplace (s pat repl : String) : String :=
  if pat.data.isEmpty then s
  else String.mk (replaceAllAux pat.data repl.data s.data.length s.data)

/-!  ## Policy-condition matching (`_policy_matches_incident`)  -/

/-- The severity branch of `_policy_matches_incident`: the condition
values are lowercased (`str(x).lower()`), the incident severity is
`inc_sev.name.lower()`, and the check is set membership. -/
def severityOK (cond : Option StrCond) (sev : String) : Bool :=
  match cond with
  | none => true
  | some (StrCond.one s) => pyLower sev == pyLower s
  | some (StrCond.many l) => (l.map pyLower).contains (pyLower sev)

/-- The service branch of `_policy_matches_incident`: membership of
`incident.service` in the condition set, with no lowercasing on either
side. -/
def serviceOK (cond : Option StrCond) (svc : String) : Bool :=
  match cond with
  | none => true
  | some (StrCond.one s) => svc == s
  | some (StrCond.many l) => l.contains svc

/-- The team branch of `_policy_matches_incident`: membership for a list
value, equality for a single value; a `None` incident team matches
neither (Python `None in {ints}` and `None == int` are both false). -/
def teamOK (cond : Option IntCond) (tid : Option Int) : Bool :=
  match cond with
  | none => true
  | some (IntCond.one n) => tid == some n
  | some (IntCond.many l) =>
      match tid with
      | some t => l.contains t
      | none => false

/-- `EscalationService._policy_matches_incident`
(`app/services/escalation_service.py`). -/
def policyMatchesIncident (policy : EscalationPolicy) (incident : Incident) : Bool :=
  severityOK policy.conditions.severity incident.severity &&
  serviceOK policy.conditions.service incident.service &&
  teamOK policy.conditions.team_id incident.team_id

/-- Modelled from the spec: the matching relation as claim C3 words it,
with the service condition checked as *case-insensitive* set membership.
Kept separate from `policyMatchesIncident`, which embeds the source. -/
def specPolicyMatchesC3 (policy : EscalationPolicy) (incident : Incident) : Bool :=
  severityOK policy.conditions.severity incident.severity &&
  (match policy.conditions.service with
   | none => true
   | some (StrCond.one s) => pyLower incident.service == pyLower s
   | some (StrCond.many l) => (l.map pyLower).contains (pyLower incident.service)) &&
  teamOK policy.conditions.team_id incident.team_id

/-!  ## Policy-authoring validation (`validate_steps` in
`app/schemas/escalation.py`)  -/

/-- Untyped JSON values, for the raw `steps` payload the pydantic
validator receives. -/
inductive Json
  | null
  | bool (b : Bool)
  | num (n : Int)
  | str (s : String)
  | arr (xs : List Json)
  | obj (kvs : List (String × Json))

/-- Key lookup in a JSON object (Python `'k' in d` / `d['k']`). -/
def jlookup (kvs : List (String × Json)) (k : String) : Option Json :=
  match kvs with
  | [] => none
  | (k', v) :: rest => if k' == k then some v else jlookup rest k

/-- The per-action checks of `validate_steps`: each action must be a dict
with a `type` key. -/
def validateAction (a : Json) : Except String Unit :=
  match a with
  | Json.obj kvs =>
      if (jlookup kvs "type").isSome then Except.ok ()
      else Except.error "Each action must have a 'type' field"
  | _ => Except.error "Each action must be a dictionary"

/-- The loop `for action in step['actions']` of `validate_steps`. -/
def validateActionList (l : List Json) : Except String Unit :=
  match l with
  | [] => Except.ok ()
  | a :: rest =>
      match validateAction a with
      | Except.error e => Except.error e
      | Except.ok _ => validateActionList rest

/-- The per-step checks of `validate_steps`, in source order: dict,
`delay_minutes` present, `actions` present and a list, non-empty, each
action valid.  The *value* of `delay_minutes` is never inspected. -/
def validateStep (s : Json) : Except String Unit :=
  match s with
  | Json.obj kvs =>
      if (jlookup kvs "delay_minutes").isNone then
        Except.error "Each step must have a 'delay_minutes' field"
      else
        match jlookup kvs "actions" with
        | some (Json.arr actions) =>
            if actions.isEmpty then Except.error "Each step must have at least one action"
            else validateActionList actions
        | some _ => Except.error "Each step must have an 'actions' list"
        | none => Except.error "Each step must have an 'actions' list"
  | _ => Except.error "Each step must be a dictionary"

/-- The loop `for step in v` of `validate_steps`. -/
def validateStepList (l : List Json) : Except String Unit :=
  match l with
  | [] => Except.ok ()
  | s :: rest =>
      match validateStep s with
      | Except.error e => Except.error e
      | Except.ok _ => validateStepList rest

/-- `EscalationPolicyBase.validate_steps` (`app/schemas/escalation.py`):
validates the raw `steps` value and returns it unchanged on success. -/
def validate_steps (v : Json) : Except String Json :=
  match v with
  | Json.arr steps =>
      match validateStepList steps with
      | Except.error e => Except.error e
      | Except.ok _ => Except.ok (Json.arr steps)
  | _ => Except.error "Steps must be a list"

/-- Whether an `Except` result is a success. -/
def exceptOk {α β : Type} (e : Except α β) : Bool :=
  match e with
  | Except.ok _ => true
  | Except.error _ => false

/-- Spec-vocabulary shape of a valid action: a dict with a `type` key. -/
def actionWF (a : Json) : Bool :=
  match a with
  | Json.obj kvs => (jlookup kvs "type").isSome
  | _ => false

/-- Spec-vocabulary shape of a valid step: a dict with `delay_minutes`
present and `actions` a non-empty list of well-formed actions.  There is
no constraint on the value of `delay_minutes`. -/
def stepWF (s : Json) : Bool :=
  match s with
  | Json.obj kvs =>
      (jlookup kvs "delay_minutes").isSome &&
      (match jlookup kvs "actions" with
       | some (Json.arr actions) => !actions.isEmpty && actions.all actionWF
       | _ => false)
  | _ => false

/-- Spec-vocabulary shape of a valid `steps` payload. -/
def stepsWF (v : Json) : Bool :=
  match v with
  | Json.arr steps => steps.all stepWF
  | _ => false

theorem validateAction_ok (a : Json) : exceptOk (validateAction a) = actionWF a := by
  cases a <;> simp [validateAction, actionWF, exceptOk]
  case obj kvs => cases h : (jlookup kvs "type").isSome <;> simp [h, exceptOk]

theorem validateActionList_ok (l : List Json) :
    exceptOk (validateActionList l) = l.all actionWF := by
  induction l with
  | nil => simp [validateActionList, exceptOk]
  | cons a rest ih =>
      simp only [validateActionList, List.all_cons]
      have h := validateAction_ok a
      cases hv : validateAction a with
      | error e => simp [hv, exceptOk] at h ⊢; simp [← h]
      | ok u =>
          simp [hv, exceptOk] at h
          cases hr : validateActionList rest with
          | error e => simp [hr, exceptOk] at ih ⊢; simp [h, ih]
          | ok v => simp [hr, exceptOk] at ih ⊢; exact ⟨h, ih⟩

theorem validateStep_ok (s : Json) : exceptOk (validateStep s) = stepWF s := by
  cases s <;> simp [validateStep, stepWF, exceptOk]
  case obj kvs =>
    cases hd : (jlookup kvs "delay_minutes").isNone
    · simp [hd]
      cases ha : jlookup kvs "actions" with
      | none => simp [exceptOk]
      | some av =>
          cases av <;> simp [exceptOk]
          case arr actions =>
            cases he : actions.isEmpty
            · simp only [he, Bool.false_eq_true, if_false]
              have h := validateActionList_ok actions
              cases hr : validateActionList actions with
              | error e =>
                  simp [hr, exceptOk] at h ⊢
                  simp [Option.isNone_eq_false_iff] at hd
                  simp [hd, h]
              | ok v =>
                  simp [hr, exceptOk] at h ⊢
                  simp [Option.isNone_eq_false_iff] at hd
                  simp [hd]
                  exact h
            · simp [he, exceptOk]
    · simp [hd, exceptOk]

theorem validateStepList_ok (l : List Json) :
    exceptOk (validateStepList l) = l.all stepWF := by
  induction l with
  | nil => simp [validateStepList, exceptOk]
  | cons s rest ih =>
      simp only [validateStepList, List.all_cons]
      have h := validateStep_ok s
      cases hv : validateStep s with
      | error e => simp [hv, exceptOk] at h ⊢; simp [← h]
      | ok u =>
          simp [hv, exceptOk] at h
          cases hr : validateStepList rest with
          | error e => simp [hr, exceptOk] at ih ⊢; simp [h, ih]
          | ok v => simp [hr, exceptOk] at ih ⊢; exact ⟨h, ih⟩

/-!  ## Environment and engine state

`Env` is the read-only surrounding world: the user directory, the policy
table and the wall clock (one evaluation call reads the clock; within the
model a call sees one fixed `now`).  `EngineState` is the mutable store
touched by one per-incident evaluation: the event ledger, the dispatched
notifications, the incident's assignment rows and the incident row
itself (a `status_change` action mutates it).  -/

structure Env where
  users : List User
  policies : List EscalationPolicy
  now : Int
  deriving Repr

/-- One dispatched notification
(`NotificationService.send_notification(recipient=user.email, ...)`). -/
structure SentNotification where
  recipient : String
  message : String
  incident_id : Int
  user_id : Int
  deriving DecidableEq, Repr

structure EngineState where
  incident : Incident
  ledger : List EscalationEvent
  sent : List SentNotification
  assignments : List Int
  deriving DecidableEq, Repr

/-- `CRUDBase.get` on users (`crud.user.get(self.db, id=user_id)`). -/
def getUser (env : Env) (uid : Int) : Option User :=
  env.users.find? (fun u => u.id == uid)

/-- `CRUDUser.get_by_email` (`app/crud/crud_user.py`). -/
def getUserByEmail (env : Env) (email : String) : Option User :=
  env.users.find? (fun u => u.email == email)

/-- `CRUDUser.get_by_role_and_team` (`app/crud/crud_user.py`): active
users with the given role and team reference. -/
def getByRoleAndTeam (env : Env) (role : UserRole) (team_id : Option Int) : List User :=
  env.users.filter (fun u => u.role == role && u.team_id == team_id && u.is_active)

/-- The `role_mapping` dict of
`EscalationService._get_users_by_role_and_team`. -/
def roleMapping (role : String) : Option UserRole :=
  if role == "team_lead" then some UserRole.team_lead
  else if role == "manager" then some UserRole.manager
  else if role == "vp" then some UserRole.vp
  else if role == "cto" then some UserRole.cto
  else if role == "oncall_engineer" then some UserRole.oncall_engineer
  else none

/-- `EscalationService._get_users_by_role_and_team`: unknown role
keywords yield the empty list. -/
def getUsersByRoleAndTeam (env : Env) (role : String) (team_id : Option Int) : List User :=
  match roleMapping role with
  | none => []
  | some r => getByRoleAndTeam env r team_id

/-- Python truthiness of `incident.team_id` in
`if not incident.team_id:` (`None` and `0` are both falsy). -/
def teamFalsy (tid : Option Int) : Bool :=
  match tid with
  | none => true
  | some t => t == 0

/-- `EscalationService._get_escalation_targets`: the early return makes
*every* descriptor resolve to `[]` when the incident has no (truthy)
team; then `assignees`, the five role keywords, an integer-parseable
string (user-id lookup), and finally an email lookup. -/
def getEscalationTargets (env : Env) (st : EngineState) (target : String) : List User :=
  if teamFalsy st.incident.team_id then []
  else if target == "assignees" then st.assignments.filterMap (getUser env)
  else if target == "team_lead" || target == "manager" || target == "vp" ||
          target == "cto" || target == "oncall_engineer" then
    getUsersByRoleAndTeam env target st.incident.team_id
  else
    match pyToInt target with
    | some uid =>
        match getUser env uid with
        | some u => [u]
        | none => []
    | none =>
        match getUserByEmail env target with
        | some u => [u]
        | none => []

/-- The accumulated result dict of one action handler
(`{"triggered_for": ..., "target_users": ..., "new_notifications": ...}`;
the untracked service handlers have no `new_notifications` key, modelled
as `0`). -/
structure ActionResult where
  triggered_for : List String := []
  target_users : List TargetUser := []
  new_notifications : Nat := 0
  deriving DecidableEq, Repr

/-!  ## Service action handlers (`app/services/escalation_service.py`)  -/

/-- The `for user in users` body of
`EscalationService._process_notification_action`: record the target user
and dispatch unconditionally. -/
def notifyLoopS (message : String) (roleLabel : String) :
    List User → EngineState → List TargetUser → List TargetUser × EngineState
  | [], st, tu => (tu, st)
  | u :: rest, st, tu =>
      let tu' := tu ++ [⟨u.id, u.full_name, u.email, roleLabel⟩]
      let st' := { st with
        sent := st.sent ++ [⟨u.email, message, st.incident.id, u.id⟩] }
      notifyLoopS message roleLabel rest st' tu'

/-- The `for recipient in recipients` loop of
`EscalationService._process_notification_action`. -/
def recipientLoopS (env : Env) (message : String) :
    List String → EngineState → List String → List TargetUser →
    List String × List TargetUser × EngineState
  | [], st, tf, tu => (tf, tu, st)
  | r :: rest, st, tf, tu =>
      let users := getEscalationTargets env st r
      let p := notifyLoopS message "responder" users st tu
      recipientLoopS env message rest p.2 (tf ++ [r]) p.1

/-- The recipients computation shared by both notification handlers:
`action.get("recipients")`, else `[action["target"]]` when a `target`
key exists, else the default `["assignees"]` (an empty list is falsy and
also falls back). -/
def notifyRecipients (action : Action) : List String :=
  let r :=
    match action.recipients with
    | some rs => rs
    | none =>
        match action.target with
        | some t => [t]
        | none => []
  if r.isEmpty then ["assignees"] else r

/-- `EscalationService._process_notification_action`. -/
def processNotificationActionS (env : Env) (st : EngineState) (action : Action) :
    ActionResult × EngineState :=
  let message := action.message.getD
    ("Incident " ++ toString st.incident.id ++ " requires attention")
  let p := recipientLoopS env message (notifyRecipients action) st [] []
  ({ triggered_for := p.1, target_users := p.2.1 }, p.2.2)

/-- The `for role in target_roles` loop of
`EscalationService._process_role_notification_action`. -/
def roleLoopS (env : Env) (message : String) :
    List String → EngineState → List String → List TargetUser →
    List String × List TargetUser × EngineState
  | [], st, tf, tu => (tf, tu, st)
  | role :: rest, st, tf, tu =>
      let users := getUsersByRoleAndTeam env role st.incident.team_id
      let p := notifyLoopS message role users st tu
      roleLoopS env message rest p.2 (tf ++ [role]) p.1

/-- `EscalationService._process_role_notification_action`: the role is
the action type with every `notify_` occurrence removed
(`str.replace`), and it overrides any `target_roles` key.  The
dispatcher only calls this when the type starts with `notify_`. -/
def processRoleNotificationActionS (env : Env) (st : EngineState) (action : Action) :
    ActionResult × EngineState :=
  let role := pyReplace (action.type.getD "") "notify_" ""
  let message := "Escalation: Incident " ++ toString st.incident.id ++ " (" ++
    st.incident.title ++ ") requires " ++ role ++ " attention"
  let p := roleLoopS env message [role] st [] []
  ({ triggered_for := p.1, target_users := p.2.1 }, p.2.2)

/-- The `for user in users` body of
`EscalationService._process_assign_action`: create the assignment row
only when none exists for this (incident, user) pair. -/
def assignLoopS : List User → EngineState → List TargetUser →
    List TargetUser × EngineState
  | [], st, tu => (tu, st)
  | u :: rest, st, tu =>
      let tu' := tu ++ [⟨u.id, u.full_name, u.email, "assignee"⟩]
      let st' :=
        if st.assignments.contains u.id then st
        else { st with assignments := st.assignments ++ [u.id] }
      assignLoopS rest st' tu'

/-- `EscalationService._process_assign_action`: a missing or empty
(falsy) `target` yields the empty result. -/
def processAssignActionS (env : Env) (st : EngineState) (action : Action) :
    ActionResult × EngineState :=
  match action.target with
  | none => ({}, st)
  | some t =>
      if t == "" then ({}, st)
      else
        let users := getEscalationTargets env st t
        let p := assignLoopS users st []
        ({ triggered_for := [t], target_users := p.1 }, p.2)

/-- `IncidentStatus[status.upper()]`: name lookup in the incident status
enum, `none` for a `KeyError`. -/
def statusFromName (s : String) : Option IncidentStatus :=
  if pyUpper s == "TRIGGERED" then some IncidentStatus.triggered
  else if pyUpper s == "ACKNOWLEDGED" then some IncidentStatus.acknowledged
  else if pyUpper s == "RESOLVED" then some IncidentStatus.resolved
  else if pyUpper s == "SNOOZED" then some IncidentStatus.snoozed
  else none

/-- `EscalationService._process_status_change_action`: a falsy `status`
yields the empty result; an invalid status name is logged and ignored
(the `triggered_for` entry is still produced); a valid one updates the
incident's status (`crud.incident.update_status`). -/
def processStatusChangeActionS (_env : Env) (st : EngineState) (action : Action) :
    ActionResult × EngineState :=
  match action.status with
  | none => ({}, st)
  | some s =>
      if s == "" then ({}, st)
      else
        let st' :=
          match statusFromName s with
          | some newStatus => { st with incident := { st.incident with status := newStatus } }
          | none => st
        ({ triggered_for := ["status_change_to_" ++ s], target_users := [] }, st')

/-- `EscalationService._process_action`: dispatch on the `type` string.
A missing `type` raises (`None` has no `startswith`); a string that
matches no branch falls through to the empty result with no side
effects. -/
def processActionS (env : Env) (st : EngineState) (action : Action) :
    Except String (ActionResult × EngineState) :=
  match action.type with
  | none => Except.error attrErrStartswith
  | some t =>
      if t == "notify" then Except.ok (processNotificationActionS env st action)
      else if pyStartsWith t "notify_" then
        Except.ok (processRoleNotificationActionS env st action)
      else if t == "assign" then Except.ok (processAssignActionS env st action)
      else if t == "status_change" || t == "change_status" then
        Except.ok (processStatusChangeActionS env st action)
      else Except.ok ({}, st)

/-!  ## Service evaluator (`check_and_escalate_incident` and
`process_escalation_policy`)  -/

/-- The `for action in current_step.get("actions", [])` loop inside the
`try` of `process_escalation_policy`: accumulate `triggered_for` and
`target_users`; an exception aborts the loop but keeps the side effects
already performed (notifications already sent stay sent). -/
def runActionsS (env : Env) :
    List Action → EngineState → List String → List TargetUser →
    Except String (List String × List TargetUser) × EngineState
  | [], st, tf, tu => (Except.ok (tf, tu), st)
  | a :: rest, st, tf, tu =>
      match processActionS env st a with
      | Except.error e => (Except.error e, st)
      | Except.ok (res, st') =>
          runActionsS env rest st' (tf ++ res.triggered_for) (tu ++ res.target_users)

/-- `CRUDBase.create` for escalation events: a plain insert.  The
`escalation_events` table has no uniqueness constraint beyond its
primary key (see `escalationEventsIndexes`), so the insert always
succeeds. -/
def escalationEventCreate (ledger : List EscalationEvent) (ev : EscalationEvent) :
    List EscalationEvent :=
  ledger ++ [ev]

/-- The `pending` event row as persisted by `process_escalation_policy`.
The Python builds a rich metadata dict (policy name, incident age,
delay, empty target lists), but `CRUDBase.create` routes the
`"metadata"` key into an unmapped plain instance attribute — its alias
branch requires an `event_metadata` model attribute, which does not
exist — so the persisted `metadata` column keeps its default `{}`. -/
def pendingEventS (_env : Env) (policy : EscalationPolicy) (idx : Nat) (_step : Step)
    (st : EngineState) : EscalationEvent :=
  { incident_id := st.incident.id
    policy_id := policy.id
    step := idx
    status := EventStatus.pending
    metadata_ := {} }

/-- The end of one `process_escalation_policy` iteration.  On success
of all actions the code first reads `event.event_metadata` (line 218)
to merge the accumulated target data before `mark_as_completed`; that
read raises, the surrounding `except` catches it, and `mark_as_failed`
records `str(e)` — so the `completed` branch below is unreachable and
every event is finalized `failed`.  On an action exception the error
text is recorded directly. -/
def finalizeEventS (ev : EscalationEvent)
    (r : Except String (List String × List TargetUser)) : EscalationEvent :=
  match r with
  | Except.ok p =>
      match eventMetadataAttr ev with
      | Except.ok md =>
          { ev with
            status := EventStatus.completed
            metadata_ := { md with triggered_for := p.1, target_users := p.2 } }
      | Except.error e =>
          { ev with
            status := EventStatus.failed
            metadata_ := { ev.metadata_ with error := some e } }
  | Except.error e =>
      { ev with
        status := EventStatus.failed
        metadata_ := { ev.metadata_ with error := some e } }

/-- One iteration body of `process_escalation_policy`: create the
`pending` event, run the step's actions, then either merge the
accumulated target data and mark the event `completed`
(`mark_as_completed`) or record the error text and mark it `failed`
(`mark_as_failed`). -/
def processStepS (env : Env) (policy : EscalationPolicy) (idx : Nat) (step : Step)
    (st : EngineState) : EngineState :=
  let ev := pendingEventS env policy idx step st
  let eid := st.ledger.length
  let st1 := { st with ledger := escalationEventCreate st.ledger ev }
  let r := runActionsS env step.actions st1 [] []
  { r.2 with ledger := r.2.ledger.set eid (finalizeEventS ev r.1) }

/-- `EscalationService._get_current_escalation_step`, unrolled over the
step list with its running index: the first step whose index is not in
`processed` and whose delay has elapsed
(`incident_age >= timedelta(minutes=step.get("delay_minutes", 0))`).
The processor's `process_policy_escalations` loop
(`scripts/escalation_processor.py`) selects its step by the same
skip-or-fire-or-continue logic. -/
def firstDueStep (now createdAt : Int) :
    List Step → Nat → List Nat → Option (Nat × Step)
  | [], _, _ => none
  | s :: rest, idx, processed =>
      if processed.contains idx then firstDueStep now createdAt rest (idx + 1) processed
      else if now - createdAt ≥ s.delay_minutes.getD 0 then some (idx, s)
      else firstDueStep now createdAt rest (idx + 1) processed

/-- `EscalationService._get_current_escalation_step`. -/
def getCurrentEscalationStep (env : Env) (incident : Incident)
    (policy : EscalationPolicy) (processed : List Nat) : Option (Nat × Step) :=
  firstDueStep env.now incident.created_at policy.steps 0 processed

/-- The `while True` loop of `process_escalation_policy`, with fuel.
Each iteration adds a fresh step index (below `policy.steps.length`) to
the call-local `processed_steps` set, so `policy.steps.length + 1` fuel
always reaches the `break`; the fuelled function therefore computes the
same state as the unbounded loop. -/
def processPolicyLoopS (env : Env) (policy : EscalationPolicy) :
    Nat → List Nat → EngineState → EngineState
  | 0, _, st => st
  | fuel + 1, processed, st =>
      match getCurrentEscalationStep env st.incident policy processed with
      | none => st
      | some p =>
          let st' := processStepS env policy p.1 p.2 st
          processPolicyLoopS env policy fuel (p.1 :: processed) st'

/-- `EscalationService.process_escalation_policy`: note that
`processed_steps` starts empty on every call — it is call-local and the
ledger is never consulted. -/
def process_escalation_policy (env : Env) (policy : EscalationPolicy)
    (st : EngineState) : EngineState :=
  processPolicyLoopS env policy (policy.steps.length + 1) [] st

/-- `CRUDEscalationPolicy.get_active_policies`. -/
def getActivePolicies (env : Env) : List EscalationPolicy :=
  env.policies.filter (fun p => p.is_active)

/-- `EscalationService._get_matching_policies`. -/
def getMatchingPolicies (env : Env) (incident : Incident) : List EscalationPolicy :=
  (getActivePolicies env).filter (fun p => policyMatchesIncident p incident)

/-- `EscalationService.check_and_escalate_incident`: skip resolved or
snoozed incidents, then process every matching policy. -/
def check_and_escalate_incident (env : Env) (st : EngineState) : EngineState :=
  if st.incident.status == IncidentStatus.resolved ||
     st.incident.status == IncidentStatus.snoozed then st
  else
    (getMatchingPolicies env st.incident).foldl
      (fun s p => process_escalation_policy env p s) st

/-!  ## Periodic sweep (`scripts/escalation_processor.py`)  -/

/-- `EscalationProcessor.get_processed_escalation_steps`: the step
indices of *all* events recorded for this incident/policy pair,
regardless of status. -/
def get_processed_escalation_steps (ledger : List EscalationEvent)
    (incident_id policy_id : Int) : List Nat :=
  (ledger.filter (fun ev => ev.incident_id == incident_id && ev.policy_id == policy_id)).map
    (fun ev => ev.step)

/-- The `for event in events` loop of
`EscalationProcessor.get_notified_users_for_step`: each iteration reads
`event.event_metadata` (line 79), so the first event raises
`AttributeError`; the `target_users` id extraction below the read is
unreachable (and persisted metadata never contains `target_users`
anyway, see `pendingEventT`). -/
def collectNotified : List EscalationEvent → List Int → Except String (List Int)
  | [], acc => Except.ok acc
  | ev :: rest, acc =>
      match eventMetadataAttr ev with
      | Except.error e => Except.error e
      | Except.ok md =>
          collectNotified rest (acc ++ md.target_users.map (fun tu => tu.id))

/-- `EscalationProcessor.get_notified_users_for_step`: queries the
events for this exact step and folds the metadata extraction over them
— the empty set when no event exists, an `AttributeError` otherwise. -/
def get_notified_users_for_step (ledger : List EscalationEvent)
    (incident_id policy_id : Int) (step : Nat) : Except String (List Int) :=
  collectNotified
    (ledger.filter (fun ev =>
      ev.incident_id == incident_id && ev.policy_id == policy_id && ev.step == step))
    []

/-- `EscalationProcessor.should_notify_user`: re-queries the ledger on
every call, propagating the `AttributeError` whenever any event exists
for the step. -/
def should_notify_user (ledger : List EscalationEvent) (user_id : Int)
    (incident_id policy_id : Int) (step : Nat) : Except String Bool :=
  match get_notified_users_for_step ledger incident_id policy_id step with
  | Except.error e => Except.error e
  | Except.ok notified => Except.ok (!(notified.contains user_id))

/-- The `for user in users` body of
`EscalationProcessor._process_notification_action_with_tracking`: the
target user is recorded, then `should_notify_user` is consulted — once
the step's own pending event is in the ledger this raises, aborting the
loop with the sends made so far kept. -/
def notifyLoopT (message : String) (roleLabel : String) (policy_id : Int) (sidx : Nat) :
    List User → EngineState → List TargetUser → Nat →
    Except String (List TargetUser × Nat) × EngineState
  | [], st, tu, cnt => (Except.ok (tu, cnt), st)
  | u :: rest, st, tu, cnt =>
      let tu' := tu ++ [⟨u.id, u.full_name, u.email, roleLabel⟩]
      match should_notify_user st.ledger u.id st.incident.id policy_id sidx with
      | Except.error e => (Except.error e, st)
      | Except.ok b =>
          if b then
            let st' := { st with
              sent := st.sent ++ [⟨u.email, message, st.incident.id, u.id⟩] }
            notifyLoopT message roleLabel policy_id sidx rest st' tu' (cnt + 1)
          else notifyLoopT message roleLabel policy_id sidx rest st tu' cnt

/-- The `for recipient in recipients` loop of
`EscalationProcessor._process_notification_action_with_tracking`
(targets resolved through
`escalation_service._get_escalation_targets`). -/
def recipientLoopT (env : Env) (message : String) (policy_id : Int) (sidx : Nat) :
    List String → EngineState → List String → List TargetUser → Nat →
    Except String (List String × List TargetUser × Nat) × EngineState
  | [], st, tf, tu, cnt => (Except.ok (tf, tu, cnt), st)
  | r :: rest, st, tf, tu, cnt =>
      let users := getEscalationTargets env st r
      let p := notifyLoopT message "responder" policy_id sidx users st tu cnt
      match p.1 with
      | Except.error e => (Except.error e, p.2)
      | Except.ok q =>
          recipientLoopT env message policy_id sidx rest p.2 (tf ++ [r]) q.1 q.2

/-- `EscalationProcessor._process_notification_action_with_tracking`. -/
def processNotificationActionT (env : Env) (st : EngineState) (action : Action)
    (sidx : Nat) (policy_id : Int) : Except String ActionResult × EngineState :=
  let message := action.message.getD
    ("Incident " ++ toString st.incident.id ++ " requires attention")
  let p := recipientLoopT env message policy_id sidx (notifyRecipients action) st [] [] 0
  (Except.map (fun q =>
      { triggered_for := q.1, target_users := q.2.1, new_notifications := q.2.2 }) p.1,
    p.2)

/-- The `for role in target_roles` loop of
`EscalationProcessor._process_role_notification_action_with_tracking`
(users via `_get_users_by_role_and_team`, with no team guard). -/
def roleLoopT (env : Env) (message : String) (policy_id : Int) (sidx : Nat) :
    List String → EngineState → List String → List TargetUser → Nat →
    Except String (List String × List TargetUser × Nat) × EngineState
  | [], st, tf, tu, cnt => (Except.ok (tf, tu, cnt), st)
  | role :: rest, st, tf, tu, cnt =>
      let users := getUsersByRoleAndTeam env role st.incident.team_id
      let p := notifyLoopT message role policy_id sidx users st tu cnt
      match p.1 with
      | Except.error e => (Except.error e, p.2)
      | Except.ok q =>
          roleLoopT env message policy_id sidx rest p.2 (tf ++ [role]) q.1 q.2

/-- `EscalationProcessor._process_role_notification_action_with_tracking`. -/
def processRoleNotificationActionT (env : Env) (st : EngineState) (action : Action)
    (sidx : Nat) (policy_id : Int) : Except String ActionResult × EngineState :=
  let role := pyReplace (action.type.getD "") "notify_" ""
  let message := "Escalation: Incident " ++ toString st.incident.id ++ " (" ++
    st.incident.title ++ ") requires " ++ role ++ " attention"
  let p := roleLoopT env message policy_id sidx [role] st [] [] 0
  (Except.map (fun q =>
      { triggered_for := q.1, target_users := q.2.1, new_notifications := q.2.2 }) p.1,
    p.2)

/-- `EscalationProcessor._process_action_with_tracking`: same dispatch
shape as the service, except that the `assign` branch is a stub
returning the empty result and there is no status-change branch.  A
missing `type` raises exactly as in the service; a handler exception
propagates with the side effects made so far. -/
def processActionT (env : Env) (st : EngineState) (action : Action)
    (sidx : Nat) (policy_id : Int) : Except String ActionResult × EngineState :=
  match action.type with
  | none => (Except.error attrErrStartswith, st)
  | some t =>
      if t == "notify" then
        processNotificationActionT env st action sidx policy_id
      else if pyStartsWith t "notify_" then
        processRoleNotificationActionT env st action sidx policy_id
      else if t == "assign" then (Except.ok {}, st)
      else (Except.ok {}, st)

/-- The action loop of `EscalationProcessor.process_escalation_step`,
also accumulating `new_notifications`. -/
def runActionsT (env : Env) (sidx : Nat) (policy_id : Int) :
    List Action → EngineState → List String → List TargetUser → Nat →
    Except String (List String × List TargetUser × Nat) × EngineState
  | [], st, tf, tu, cnt => (Except.ok (tf, tu, cnt), st)
  | a :: rest, st, tf, tu, cnt =>
      let p := processActionT env st a sidx policy_id
      match p.1 with
      | Except.error e => (Except.error e, p.2)
      | Except.ok res =>
          runActionsT env sidx policy_id rest p.2 (tf ++ res.triggered_for)
            (tu ++ res.target_users) (cnt + res.new_notifications)

/-- The `pending` event row as persisted by
`EscalationProcessor.process_escalation_step`.  As on the service path,
`CRUDBase.create` misroutes the computed metadata dict (which would
also carry `already_notified_users`) into an unmapped attribute, so the
persisted `metadata` column is `{}`. -/
def pendingEventT (_env : Env) (policy : EscalationPolicy) (idx : Nat) (_step : Step)
    (st : EngineState) : EscalationEvent :=
  { incident_id := st.incident.id
    policy_id := policy.id
    step := idx
    status := EventStatus.pending
    metadata_ := {} }

/-- The end of `EscalationProcessor.process_escalation_step`.  On
success the code reads `event.event_metadata` (line 192) to merge the
target data and count before `mark_as_completed`; the read raises, the
`except` catches it, and `mark_as_failed` records `str(e)` — the
`completed` branch is unreachable.  On an action exception the error
text is recorded directly. -/
def finalizeEventT (ev : EscalationEvent)
    (r : Except String (List String × List TargetUser × Nat)) : EscalationEvent :=
  match r with
  | Except.ok p =>
      match eventMetadataAttr ev with
      | Except.ok md =>
          { ev with
            status := EventStatus.completed
            metadata_ := { md with
              triggered_for := p.1, target_users := p.2.1,
              new_notifications := some p.2.2 } }
      | Except.error e =>
          { ev with
            status := EventStatus.failed
            metadata_ := { ev.metadata_ with error := some e } }
  | Except.error e =>
      { ev with
        status := EventStatus.failed
        metadata_ := { ev.metadata_ with error := some e } }

/-- `EscalationProcessor.process_escalation_step`: the
`get_notified_users_for_step` call at entry is *outside* the `try`, so
its `AttributeError` (raised whenever an event already exists for this
exact step) propagates to the caller; otherwise create the pending
event and run the actions, with every exception inside the `try` caught
and the event finalized. -/
def process_escalation_step (env : Env) (policy : EscalationPolicy) (idx : Nat)
    (step : Step) (st : EngineState) : Except String EngineState :=
  match get_notified_users_for_step st.ledger st.incident.id policy.id idx with
  | Except.error e => Except.error e
  | Except.ok _notified =>
      let ev := pendingEventT env policy idx step st
      let eid := st.ledger.length
      let st1 := { st with ledger := escalationEventCreate st.ledger ev }
      let r := runActionsT env idx policy.id step.actions st1 [] [] 0
      Except.ok { r.2 with ledger := r.2.ledger.set eid (finalizeEventT ev r.1) }

/-- `EscalationProcessor.process_policy_escalations`: compute the
already-processed step indices *from the ledger*, walk the steps in
index order skipping processed ones, fire the first due one and `break`
— at most one step per policy per sweep.  It catches nothing, so an
exception escaping `process_escalation_step` propagates further. -/
def process_policy_escalations (env : Env) (policy : EscalationPolicy)
    (st : EngineState) : Except String EngineState :=
  let processed := get_processed_escalation_steps st.ledger st.incident.id policy.id
  match firstDueStep env.now st.incident.created_at policy.steps 0 processed with
  | none => Except.ok st
  | some p => process_escalation_step env policy p.1 p.2 st

/-- The `for policy in policies` loop of
`EscalationProcessor.process_incident_escalations` (no catch: an
exception aborts the remaining policies and propagates). -/
def processPoliciesT (env : Env) : List EscalationPolicy → EngineState →
    Except String EngineState
  | [], st => Except.ok st
  | p :: rest, st =>
      match process_policy_escalations env p st with
      | Except.error e => Except.error e
      | Except.ok st' => processPoliciesT env rest st'

/-- `EscalationProcessor.process_incident_escalations`: the sweep's
per-incident processing (the sweep itself only feeds it incidents whose
status is `triggered` or `acknowledged`, and catches exceptions per
incident). -/
def process_incident_escalations (env : Env) (st : EngineState) :
    Except String EngineState :=
  processPoliciesT env (getMatchingPolicies env st.incident) st

/-!  ## Persisted index layout of `escalation_events`
(`alembic/versions/20240819_add_escalation_models.py`)  -/

/-- One index as created by the migration. -/
structure IndexDef where
  name : String
  columns : List String
  unique : Bool
  deriving DecidableEq, Repr

/-- The three indexes the migration creates on `escalation_events`
(plus the primary key on `id`, which is not on the event tuple).  All
three are declared with `unique=False`, and neither the migration nor
`app/models/escalation.py` declares any unique constraint on
`(incident_id, policy_id, step)`. -/
def escalationEventsIndexes : List IndexDef :=
  [ ⟨"idx_escalation_events_incident", ["incident_id"], false⟩,
    ⟨"idx_escalation_events_policy", ["policy_id"], false⟩,
    ⟨"idx_escalation_events_status", ["status"], false⟩ ]

/-!  ## Concrete fixtures used by counterexamples and witnesses  -/

/-- An ordinary triggered incident with a team. -/
def incFix : Incident :=
  { id := 1, title := "T", status := IncidentStatus.triggered, severity := "high",
    service := "api", team_id := some 1, created_at := 0 }

/-- A one-step, zero-delay policy whose single `notify` action resolves
to no users (no assignees), so the step completes with no dispatches. -/
def polOneStep : EscalationPolicy :=
  { id := 1, name := "P",
    steps := [{ delay_minutes := some 0, actions := [{ type := some "notify" }] }] }

def envOneStep : Env := { users := [], policies := [polOneStep], now := 0 }

/-- Fresh store: empty ledger, nothing sent, no assignments. -/
def stFix : EngineState := { incident := incFix, ledger := [], sent := [], assignments := [] }

/-- Events in the ledger for one (incident, policy, step) tuple. -/
def eventCountForStep (ledger : List EscalationEvent) (incident_id policy_id : Int)
    (sidx : Nat) : Nat :=
  (ledger.filter (fun ev =>
    ev.incident_id == incident_id && ev.policy_id == policy_id && ev.step == sidx)).length

/-- Events in the ledger for one tuple that reached `completed`. -/
def completedEventCount (ledger : List EscalationEvent) (incident_id policy_id : Int)
    (sidx : Nat) : Nat :=
  (ledger.filter (fun ev =>
    ev.incident_id == incident_id && ev.policy_id == policy_id && ev.step == sidx &&
    ev.status == EventStatus.completed)).length

/-- C1: evaluating the same due step twice through
`check_and_escalate_incident`.  The second call starts again from an
empty call-local `processed_steps` set and never consults the ledger,
so a second event for the tuple is created — and neither event is ever
`completed`, because the metadata merge before `mark_as_completed`
reads the nonexistent `event.event_metadata` attribute and every event
is finalized `failed`. -/
theorem double_evaluation_duplicate_events :
    eventCountForStep
      ((check_and_escalate_incident envOneStep
        (check_and_escalate_incident envOneStep stFix)).ledger) 1 1 0 = 2 ∧
    completedEventCount
      ((check_and_escalate_incident envOneStep
        (check_and_escalate_incident envOneStep stFix)).ledger) 1 1 0 = 0 := by
  exact ⟨by decide, by decide⟩

/-- The event row the C2 duplicate insert uses. -/
def dupEv : EscalationEvent :=
  { incident_id := 1, policy_id := 1, step := 0, status := EventStatus.pending,
    metadata_ := {} }

/-- C2: the migration declares no unique index on
`(incident_id, policy_id, step)`, and the store therefore accepts a
second pending insert for a tuple that already has an event: both rows
persist. -/
theorem event_store_accepts_duplicate_tuple :
    (escalationEventsIndexes.all (fun i =>
      !(i.unique && i.columns == ["incident_id", "policy_id", "step"]))) = true ∧
    eventCountForStep (escalationEventCreate (escalationEventCreate [] dupEv) dupEv)
      1 1 0 = 2 := by
  exact ⟨by decide, by decide⟩

/-- C5: `check_and_escalate_incident` on a resolved or snoozed incident
returns the store unchanged — zero events created, zero notifications
dispatched, regardless of the configured policies. -/
theorem terminal_state_exclusion (env : Env) (st : EngineState)
    (h : st.incident.status = IncidentStatus.resolved ∨
         st.incident.status = IncidentStatus.snoozed) :
    check_and_escalate_incident env st = st := by
  rcases h with h | h <;> simp [check_and_escalate_incident, h]

/-- A resolved incident in an environment with a matching zero-delay
policy. -/
def stResolved : EngineState :=
  { incident := { incFix with status := IncidentStatus.resolved },
    ledger := [], sent := [], assignments := [] }

theorem terminal_state_exclusion_witness :
    check_and_escalate_incident envOneStep stResolved = stResolved :=
  terminal_state_exclusion envOneStep stResolved (Or.inl rfl)

/-- A policy whose only condition is an upper-case service value. -/
def polUpperService : EscalationPolicy :=
  { id := 1, conditions := { service := some (StrCond.many ["API"]) } }

/-- C3 as stated is false: the code compares the service condition
case-sensitively, so `{"service": ["API"]}` does not match an incident
with service `api`, while the claim's case-insensitive reading does. -/
theorem service_matching_case_sensitive_counterexample :
    policyMatchesIncident polUpperService incFix = false ∧
    specPolicyMatchesC3 polUpperService incFix = true := by
  exact ⟨by decide, by decide⟩

/-- Spec-vocabulary severity condition: case-insensitive membership. -/
def severityCondHolds : StrCond → String → Prop
  | StrCond.one s, sev => pyLower sev = pyLower s
  | StrCond.many l, sev => pyLower sev ∈ l.map pyLower

/-- Spec-vocabulary service condition: case-sensitive (exact)
membership, as the code implements it. -/
def serviceCondHolds : StrCond → String → Prop
  | StrCond.one s, svc => svc = s
  | StrCond.many l, svc => svc ∈ l

/-- Spec-vocabulary team condition: exact value or set membership. -/
def teamCondHolds : IntCond → Option Int → Prop
  | IntCond.one n, tid => tid = some n
  | IntCond.many l, tid => ∃ t, tid = some t ∧ t ∈ l

theorem severityOK_iff (c : Option StrCond) (sev : String) :
    severityOK c sev = true ↔ ∀ x, c = some x → severityCondHolds x sev := by
  cases c with
  | none => simp [severityOK]
  | some x =>
      cases x <;> simp [severityOK, severityCondHolds]

theorem serviceOK_iff (c : Option StrCond) (svc : String) :
    serviceOK c svc = true ↔ ∀ x, c = some x → serviceCondHolds x svc := by
  cases c with
  | none => simp [serviceOK]
  | some x =>
      cases x <;> simp [serviceOK, serviceCondHolds]

theorem teamOK_iff (c : Option IntCond) (tid : Option Int) :
    teamOK c tid = true ↔ ∀ x, c = some x → teamCondHolds x tid := by
  cases c with
  | none => simp [teamOK]
  | some x =>
      cases x with
      | one n => simp [teamOK, teamCondHolds]
      | many l =>
          cases tid <;> simp [teamOK, teamCondHolds]

/-- C3 amended: `_policy_matches_incident` holds exactly when every
condition key present in the policy matches the incident — severity as
case-insensitive set membership, service as case-sensitive (exact) set
membership, team_id as exact value or set membership; an absent key
places no constraint, and a policy with all three keys absent matches
every incident. -/
theorem policy_condition_matching_amended :
    (∀ (p : EscalationPolicy) (i : Incident),
       policyMatchesIncident p i = true ↔
         ((∀ x, p.conditions.severity = some x → severityCondHolds x i.severity) ∧
          (∀ x, p.conditions.service = some x → serviceCondHolds x i.service) ∧
          (∀ x, p.conditions.team_id = some x → teamCondHolds x i.team_id))) ∧
    (∀ (p : EscalationPolicy) (i : Incident),
       p.conditions = {} → policyMatchesIncident p i = true) := by
  constructor
  · intro p i
    simp only [policyMatchesIncident, Bool.and_eq_true]
    rw [severityOK_iff, serviceOK_iff, teamOK_iff]
    tauto
  · intro p i h
    simp [policyMatchesIncident, h, severityOK, serviceOK, teamOK]

theorem policy_condition_matching_amended_witness :
    policyMatchesIncident { id := 7 } incFix = true :=
  policy_condition_matching_amended.2 { id := 7 } incFix rfl

/-- The raw `steps` JSON with a negative `delay_minutes` value. -/
def negDelayStepKvs : List (String × Json) :=
  [("delay_minutes", Json.num (-5)),
   ("actions", Json.arr [Json.obj [("type", Json.str "notify")]])]

def negDelaySteps : Json := Json.arr [Json.obj negDelayStepKvs]

/-- C9 as stated is false: `validate_steps` accepts a step whose
`delay_minutes` is `-5` — the validator checks only the presence of the
key, never its value. -/
theorem negative_delay_accepted_counterexample :
    validate_steps negDelaySteps = Except.ok negDelaySteps ∧
    jlookup negDelayStepKvs "delay_minutes" = some (Json.num (-5)) := by
  exact ⟨rfl, rfl⟩

/-- C9 amended: `validate_steps` succeeds exactly on payloads whose
every step is a dict carrying a `delay_minutes` key and a non-empty
`actions` list of dicts that each carry a `type` key — the rejections
the claim lists are enforced, but the value of `delay_minutes` is
unconstrained (it may be negative). -/
theorem validate_steps_characterization (v : Json) :
    exceptOk (validate_steps v) = stepsWF v := by
  cases v <;> simp [validate_steps, stepsWF, exceptOk]
  case arr steps =>
    have h := validateStepList_ok steps
    cases hv : validateStepList steps with
    | error e => simp [hv, exceptOk] at h ⊢; exact h
    | ok u => simp [hv, exceptOk] at h ⊢; exact h

/-- A team-lead user on team 1. -/
def userA : User :=
  { id := 5, email := "a@example.com", full_name := "A",
    role := UserRole.team_lead, team_id := some 1, is_active := true }

/-- A manager on team 1. -/
def userB : User :=
  { id := 6, email := "b@example.com", full_name := "B",
    role := UserRole.manager, team_id := some 1, is_active := true }

def envUsers : Env := { users := [userA, userB], policies := [], now := 0 }

/-- The fixture incident with its team reference removed. -/
def incNoTeam : Incident := { incFix with team_id := none }

/-- A team-less incident that nevertheless has an assigned user. -/
def stNoTeam : EngineState :=
  { incident := incNoTeam, ledger := [], sent := [], assignments := [5] }

def stTeamFix : EngineState :=
  { incident := incFix, ledger := [], sent := [], assignments := [] }

/-- Modelled from the spec: the resolver as claim C6 words it — only
the role rule depends on the incident's team; `assignees`, id and email
lookups work without one.  Kept separate from `getEscalationTargets`,
which embeds the source. -/
def specResolveC6 (env : Env) (st : EngineState) (target : String) : List User :=
  if target == "assignees" then st.assignments.filterMap (getUser env)
  else
    match roleMapping target with
    | some r =>
        match st.incident.team_id with
        | none => []
        | some _ => getByRoleAndTeam env r st.incident.team_id
    | none =>
        match pyToInt target with
        | some uid =>
            match getUser env uid with
            | some u => [u]
            | none => []
        | none =>
            match getUserByEmail env target with
            | some u => [u]
            | none => []

/-- C6 as stated is false: for an incident with no team, the code's
early return resolves *every* descriptor to the empty list — here
`assignees` yields `[]` even though the incident has an assigned user,
while the claim's reading returns that user. -/
theorem target_resolution_no_team_counterexample :
    getEscalationTargets envUsers stNoTeam "assignees" = [] ∧
    specResolveC6 envUsers stNoTeam "assignees" = [userA] := by
  exact ⟨by decide, by decide⟩

theorem role_keyword_iff (t : String) :
    (t == "team_lead" || t == "manager" || t == "vp" || t == "cto" ||
      t == "oncall_engineer") = (roleMapping t).isSome := by
  by_cases h1 : t = "team_lead"
  · simp [h1, roleMapping]
  by_cases h2 : t = "manager"
  · simp [h2, roleMapping]
  by_cases h3 : t = "vp"
  · simp [h3, roleMapping]
  by_cases h4 : t = "cto"
  · simp [h4, roleMapping]
  by_cases h5 : t = "oncall_engineer"
  · simp [h5, roleMapping]
  · simp [roleMapping, h1, h2, h3, h4, h5]

/-- C6 amended: when the incident has no (truthy) team, every
descriptor resolves to the empty list; otherwise resolution follows the
claimed priority order — `assignees` to the incident's assigned users,
a known role keyword to the active users with that role and the
incident's team, an integer-parseable string to the user with that id,
anything else to the user with that email — and an unresolvable
descriptor yields the empty list rather than an error. -/
theorem target_resolution_amended :
    (∀ (env : Env) (st : EngineState) (t : String),
       teamFalsy st.incident.team_id = true → getEscalationTargets env st t = []) ∧
    (∀ (env : Env) (st : EngineState),
       teamFalsy st.incident.team_id = false →
       getEscalationTargets env st "assignees" = st.assignments.filterMap (getUser env)) ∧
    (∀ (env : Env) (st : EngineState) (t : String) (r : UserRole),
       teamFalsy st.incident.team_id = false → roleMapping t = some r →
       getEscalationTargets env st t =
         env.users.filter (fun u =>
           u.role == r && u.team_id == st.incident.team_id && u.is_active)) ∧
    (∀ (env : Env) (st : EngineState) (t : String) (n : Int),
       teamFalsy st.incident.team_id = false → t ≠ "assignees" → roleMapping t = none →
       pyToInt t = some n →
       getEscalationTargets env st t = ((getUser env n).map (fun u => [u])).getD []) ∧
    (∀ (env : Env) (st : EngineState) (t : String),
       teamFalsy st.incident.team_id = false → t ≠ "assignees" → roleMapping t = none →
       pyToInt t = none →
       getEscalationTargets env st t = ((getUserByEmail env t).map (fun u => [u])).getD []) := by
  refine ⟨?_, ?_, ?_, ?_, ?_⟩
  · intro env st t h
    simp [getEscalationTargets, h]
  · intro env st h
    simp [getEscalationTargets, h]
  · intro env st t r h hr
    have hne : t ≠ "assignees" := by
      intro he; rw [he] at hr; simp [roleMapping] at hr
    have hrole : (t == "team_lead" || t == "manager" || t == "vp" || t == "cto" ||
        t == "oncall_engineer") = true := by
      rw [role_keyword_iff, hr]; rfl
    simp only [getEscalationTargets, h, Bool.false_eq_true, if_false]
    rw [if_neg (by simp [hne]), if_pos hrole]
    simp [getUsersByRoleAndTeam, hr, getByRoleAndTeam]
  · intro env st t n h hne hr hint
    have hrole := role_keyword_iff t
    rw [hr] at hrole
    simp only [getEscalationTargets, h, Bool.false_eq_true, if_false]
    rw [if_neg (by simp [hne]), if_neg (by rw [hrole]; simp), hint]
    cases hu : getUser env n <;> simp [hu]
  · intro env st t h hne hr hint
    have hrole := role_keyword_iff t
    rw [hr] at hrole
    simp only [getEscalationTargets, h, Bool.false_eq_true, if_false]
    rw [if_neg (by simp [hne]), if_neg (by rw [hrole]; simp), hint]
    cases hu : getUserByEmail env t <;> simp [hu]

theorem target_resolution_amended_witness :
    getEscalationTargets envUsers stNoTeam "team_lead" = [] ∧
    getEscalationTargets envUsers stTeamFix "team_lead" =
      envUsers.users.filter (fun u =>
        u.role == UserRole.team_lead && u.team_id == stTeamFix.incident.team_id &&
        u.is_active) :=
  ⟨target_resolution_amended.1 envUsers stNoTeam "team_lead" rfl,
   (target_resolution_amended.2.2.1 envUsers stTeamFix "team_lead" UserRole.team_lead
      rfl rfl)⟩

def stepNotify : Step := { delay_minutes := some 0, actions := [{ type := some "notify" }] }

/-- A one-step zero-delay notify policy for the dedup scenario. -/
def polNotify : EscalationPolicy :=
  { id := 1, name := "N",
    steps := [{ delay_minutes := some 0, actions := [{ type := some "notify" }] }] }

def envNotify : Env := { users := [userA], policies := [polNotify], now := 0 }

/-- Fresh store with user 5 assigned to the incident. -/
def stAssigned : EngineState :=
  { incident := incFix, ledger := [], sent := [], assignments := [5] }

/-- The event the sweep leaves behind for the dedup scenario: `failed`,
with only the `AttributeError` text in its metadata. -/
def failedMetaEv : EscalationEvent :=
  { incident_id := 1, policy_id := 1, step := 0, status := EventStatus.failed,
    metadata_ := { error := some attrErrEventMetadata } }

/-- C7: the per-user de-duplication never executes.  Processing a due
`notify` step whose recipient resolves to an assigned user dispatches
*zero* notifications and marks the event `failed` with the
`AttributeError` text: `should_notify_user` re-queries the ledger,
finds the step's own pending event, and its `event.event_metadata`
read raises (first conjunct).  On a retry — any event already present
for the tuple — the entry query raises *outside* the `try` and the
exception escapes `process_escalation_step` entirely (second
conjunct). -/
theorem dedup_breaks_on_metadata_attribute :
    process_incident_escalations envNotify stAssigned =
      Except.ok { incident := incFix, ledger := [failedMetaEv], sent := [],
                  assignments := [5] } ∧
    process_escalation_step envNotify polNotify 0 stepNotify
        { incident := incFix, ledger := [failedMetaEv], sent := [], assignments := [5] } =
      Except.error attrErrEventMetadata := by
  exact ⟨rfl, rfl⟩

/-- C10: an action whose `type` is an unrecognized string is silently
ignored by both dispatchers — no side effects, empty result lists —
whereas an action with no `type` key raises in both (`None` has no
`startswith`), so the enclosing step is marked `failed` rather than the
action being skipped (shown concretely in the last conjunct). -/
theorem unknown_vs_missing_action_type :
    (∀ (env : Env) (st : EngineState) (action : Action) (t : String),
       action.type = some t → t ≠ "notify" → t ≠ "assign" →
       t ≠ "status_change" → t ≠ "change_status" → pyStartsWith t "notify_" = false →
       processActionS env st action = Except.ok ({}, st)) ∧
    (∀ (env : Env) (st : EngineState) (action : Action) (t : String) (sidx : Nat)
       (pid : Int),
       action.type = some t → t ≠ "notify" → t ≠ "assign" →
       t ≠ "status_change" → t ≠ "change_status" → pyStartsWith t "notify_" = false →
       processActionT env st action sidx pid = (Except.ok {}, st)) ∧
    (∀ (env : Env) (st : EngineState) (action : Action) (sidx : Nat) (pid : Int),
       action.type = none →
       exceptOk (processActionS env st action) = false ∧
       exceptOk (processActionT env st action sidx pid).1 = false) ∧
    ((processStepS envOneStep polOneStep 0 { delay_minutes := some 0, actions := [{}] }
        stFix).ledger.map (fun e => e.status) = [EventStatus.failed]) := by
  refine ⟨?_, ?_, ?_, by decide⟩
  · intro env st action t ht h1 h2 h3 h4 hsw
    simp [processActionS, ht, h1, h2, h3, h4, hsw]
  · intro env st action t sidx pid ht h1 h2 h3 h4 hsw
    simp [processActionT, ht, h1, h2, hsw]
  · intro env st action sidx pid ht
    simp [processActionS, processActionT, ht, exceptOk]

theorem unknown_vs_missing_action_type_witness :
    processActionS envUsers stTeamFix { type := some "frobnicate" } =
      Except.ok ({}, stTeamFix) ∧
    exceptOk (processActionS envUsers stTeamFix {}) = false :=
  ⟨unknown_vs_missing_action_type.1 envUsers stTeamFix { type := some "frobnicate" }
      "frobnicate" rfl (by decide) (by decide) (by decide) (by decide) (by decide),
   (unknown_vs_missing_action_type.2.2.1 envUsers stTeamFix {} 0 1 rfl).1⟩

/-!  ## Structural lemmas about the evaluators

The action handlers touch only `sent`, `assignments` and the incident's
`status`; the ledger is written only by step processing, which appends
the pending event and then overwrites it in place.  -/

theorem set_append_length {α : Type} (l : List α) (a b : α) :
    (l ++ [a]).set l.length b = l ++ [b] := by
  induction l with
  | nil => rfl
  | cons x xs ih => simp [List.set, ih]

theorem getElem?_append_length {α : Type} (l : List α) (a : α) :
    (l ++ [a])[l.length]? = some a := by
  induction l with
  | nil => rfl
  | cons x xs ih => simp

theorem notifyLoopS_state (m r : String) (users : List User) :
    ∀ (st : EngineState) (tu : List TargetUser),
      (notifyLoopS m r users st tu).2.ledger = st.ledger ∧
      (notifyLoopS m r users st tu).2.incident = st.incident ∧
      (notifyLoopS m r users st tu).2.assignments = st.assignments := by
  induction users with
  | nil => intro st tu; exact ⟨rfl, rfl, rfl⟩
  | cons u rest ih => intro st tu; exact ih _ _

theorem recipientLoopS_state (env : Env) (m : String) (rs : List String) :
    ∀ st tf tu, (recipientLoopS env m rs st tf tu).2.2.ledger = st.ledger ∧
      (recipientLoopS env m rs st tf tu).2.2.incident = st.incident ∧
      (recipientLoopS env m rs st tf tu).2.2.assignments = st.assignments := by
  induction rs with
  | nil => intro st tf tu; exact ⟨rfl, rfl, rfl⟩
  | cons r rest ih =>
      intro st tf tu
      have h := notifyLoopS_state m "responder" (getEscalationTargets env st r) st tu
      have h2 := ih (notifyLoopS m "responder" (getEscalationTargets env st r) st tu).2
        (tf ++ [r]) (notifyLoopS m "responder" (getEscalationTargets env st r) st tu).1
      simp only [recipientLoopS]
      exact ⟨h2.1.trans h.1, h2.2.1.trans h.2.1, h2.2.2.trans h.2.2⟩

theorem roleLoopS_state (env : Env) (m : String) (rs : List String) :
    ∀ st tf tu, (roleLoopS env m rs st tf tu).2.2.ledger = st.ledger ∧
      (roleLoopS env m rs st tf tu).2.2.incident = st.incident ∧
      (roleLoopS env m rs st tf tu).2.2.assignments = st.assignments := by
  induction rs with
  | nil => intro st tf tu; exact ⟨rfl, rfl, rfl⟩
  | cons r rest ih =>
      intro st tf tu
      have h := notifyLoopS_state m r (getUsersByRoleAndTeam env r st.incident.team_id) st tu
      have h2 := ih (notifyLoopS m r (getUsersByRoleAndTeam env r st.incident.team_id) st tu).2
        (tf ++ [r]) (notifyLoopS m r (getUsersByRoleAndTeam env r st.incident.team_id) st tu).1
      simp only [roleLoopS]
      exact ⟨h2.1.trans h.1, h2.2.1.trans h.2.1, h2.2.2.trans h.2.2⟩

theorem assignLoopS_state (users : List User) :
    ∀ st tu, (assignLoopS users st tu).2.ledger = st.ledger ∧
      (assignLoopS users st tu).2.incident = st.incident := by
  induction users with
  | nil => intro st tu; exact ⟨rfl, rfl⟩
  | cons u rest ih =>
      intro st tu
      simp only [assignLoopS]
      split
      · exact ih st _
      · exact ih _ _

theorem processNotificationActionS_state (env : Env) (st : EngineState) (a : Action) :
    (processNotificationActionS env st a).2.ledger = st.ledger ∧
    (processNotificationActionS env st a).2.incident = st.incident := by
  have h := recipientLoopS_state env
    (a.message.getD ("Incident " ++ toString st.incident.id ++ " requires attention"))
    (notifyRecipients a) st [] []
  exact ⟨h.1, h.2.1⟩

theorem processRoleNotificationActionS_state (env : Env) (st : EngineState) (a : Action) :
    (processRoleNotificationActionS env st a).2.ledger = st.ledger ∧
    (processRoleNotificationActionS env st a).2.incident = st.incident := by
  have h := roleLoopS_state env
    ("Escalation: Incident " ++ toString st.incident.id ++ " (" ++ st.incident.title ++
      ") requires " ++ pyReplace (a.type.getD "") "notify_" "" ++ " attention")
    [pyReplace (a.type.getD "") "notify_" ""] st [] []
  exact ⟨h.1, h.2.1⟩

theorem processAssignActionS_state (env : Env) (st : EngineState) (a : Action) :
    (processAssignActionS env st a).2.ledger = st.ledger ∧
    (processAssignActionS env st a).2.incident = st.incident := by
  unfold processAssignActionS
  cases ht : a.target with
  | none => exact ⟨rfl, rfl⟩
  | some t =>
      by_cases he : (t == "") = true
      · simp only [if_pos he]
        exact ⟨trivial, trivial⟩
      · simp only [if_neg he]
        exact assignLoopS_state (getEscalationTargets env st t) st []

theorem processStatusChangeActionS_state (env : Env) (st : EngineState) (a : Action) :
    (processStatusChangeActionS env st a).2.ledger = st.ledger ∧
    (processStatusChangeActionS env st a).2.incident.created_at =
      st.incident.created_at := by
  unfold processStatusChangeActionS
  cases hs : a.status with
  | none => exact ⟨rfl, rfl⟩
  | some s =>
      by_cases he : (s == "") = true
      · simp only [if_pos he]
        exact ⟨trivial, trivial⟩
      · simp only [if_neg he]
        cases hn : statusFromName s
        · simp only [hn]
          exact ⟨trivial, trivial⟩
        · simp only [hn]
          exact ⟨trivial, trivial⟩

/-- Every successful action dispatch leaves the ledger untouched and
the incident's creation time (hence its age) unchanged. -/
theorem processActionS_state (env : Env) (st : EngineState) (a : Action)
    (res : ActionResult) (st' : EngineState)
    (h : processActionS env st a = Except.ok (res, st')) :
    st'.ledger = st.ledger ∧ st'.incident.created_at = st.incident.created_at := by
  unfold processActionS at h
  cases ht : a.type with
  | none => simp [ht] at h
  | some t =>
      simp only [ht] at h
      by_cases h1 : (t == "notify") = true
      · rw [if_pos h1] at h
        injection h with h5
        have hs := processNotificationActionS_state env st a
        rw [h5] at hs
        exact ⟨hs.1, congrArg Incident.created_at hs.2⟩
      rw [if_neg h1] at h
      by_cases h2 : pyStartsWith t "notify_" = true
      · rw [if_pos h2] at h
        injection h with h5
        have hs := processRoleNotificationActionS_state env st a
        rw [h5] at hs
        exact ⟨hs.1, congrArg Incident.created_at hs.2⟩
      rw [if_neg h2] at h
      by_cases h3 : (t == "assign") = true
      · rw [if_pos h3] at h
        injection h with h5
        have hs := processAssignActionS_state env st a
        rw [h5] at hs
        exact ⟨hs.1, congrArg Incident.created_at hs.2⟩
      rw [if_neg h3] at h
      by_cases h4 : (t == "status_change" || t == "change_status") = true
      · rw [if_pos h4] at h
        injection h with h5
        have hs := processStatusChangeActionS_state env st a
        rw [h5] at hs
        exact hs
      rw [if_neg h4] at h
      injection h with h5
      injection h5 with ha hb
      subst hb
      exact ⟨rfl, rfl⟩

/-- The action loop preserves the ledger and the incident's creation
time whether it finishes or aborts on an exception. -/
theorem runActionsS_state (env : Env) (actions : List Action) :
    ∀ st tf tu, (runActionsS env actions st tf tu).2.ledger = st.ledger ∧
      (runActionsS env actions st tf tu).2.incident.created_at =
        st.incident.created_at := by
  induction actions with
  | nil => intro st tf tu; exact ⟨rfl, rfl⟩
  | cons a rest ih =>
      intro st tf tu
      simp only [runActionsS]
      cases hp : processActionS env st a with
      | error e => exact ⟨rfl, rfl⟩
      | ok pr =>
          have hs := processActionS_state env st a pr.1 pr.2 (by rw [hp])
          have h2 := ih pr.2 (tf ++ pr.1.triggered_for) (tu ++ pr.1.target_users)
          exact ⟨h2.1.trans hs.1, h2.2.trans hs.2⟩

/-- One service step processing appends exactly one event — the pending
event finalized to `completed` or `failed` — and leaves the incident's
creation time unchanged. -/
theorem finalizeEventS_fields (ev : EscalationEvent)
    (r : Except String (List String × List TargetUser)) :
    (finalizeEventS ev r).step = ev.step ∧
    (finalizeEventS ev r).incident_id = ev.incident_id ∧
    (finalizeEventS ev r).policy_id = ev.policy_id := by
  cases r <;> exact ⟨rfl, rfl, rfl⟩

theorem finalizeEventT_fields (ev : EscalationEvent)
    (r : Except String (List String × List TargetUser × Nat)) :
    (finalizeEventT ev r).step = ev.step ∧
    (finalizeEventT ev r).incident_id = ev.incident_id ∧
    (finalizeEventT ev r).policy_id = ev.policy_id := by
  cases r <;> exact ⟨rfl, rfl, rfl⟩

/-- One service step processing appends exactly one event — the pending
event finalized to `completed` or `failed` — and leaves the incident's
creation time unchanged. -/
theorem processStepS_structure (env : Env) (policy : EscalationPolicy) (idx : Nat)
    (step : Step) (st : EngineState) :
    ∃ ev : EscalationEvent,
      (processStepS env policy idx step st).ledger = st.ledger ++ [ev] ∧
      ev.step = idx ∧
      (processStepS env policy idx step st).incident.created_at =
        st.incident.created_at := by
  have hrun := runActionsS_state env step.actions
    { st with ledger := escalationEventCreate st.ledger (pendingEventS env policy idx step st) }
    [] []
  refine ⟨finalizeEventS (pendingEventS env policy idx step st)
      (runActionsS env step.actions
        { st with ledger := escalationEventCreate st.ledger (pendingEventS env policy idx step st) }
        [] []).1, ?_, ?_, ?_⟩
  · simp only [processStepS]
    rw [hrun.1]
    exact set_append_length st.ledger _ _
  · exact (finalizeEventS_fields _ _).1
  · simp only [processStepS]
    exact hrun.2

/-- `firstDueStep` really returns the first due, unprocessed step: the
returned index is unprocessed and due, and every smaller unprocessed
index is not yet due. -/
theorem firstDueStep_eq_some (now createdAt : Int) :
    ∀ (steps : List Step) (idx : Nat) (processed : List Nat) (i : Nat) (s : Step),
      firstDueStep now createdAt steps idx processed = some (i, s) →
        idx ≤ i ∧ steps[i - idx]? = some s ∧ processed.contains i = false ∧
        now - createdAt ≥ s.delay_minutes.getD 0 ∧
        (∀ (j : Nat) (t : Step), idx ≤ j → j < i → steps[j - idx]? = some t →
          processed.contains j = false → now - createdAt < t.delay_minutes.getD 0) := by
  intro steps
  induction steps with
  | nil => intro idx processed i s h; simp [firstDueStep] at h
  | cons s0 rest ih =>
      intro idx processed i s h
      simp only [firstDueStep] at h
      by_cases hc : (processed.contains idx) = true
      · rw [if_pos hc] at h
        obtain ⟨h1, h2, h3, h4, h5⟩ := ih (idx + 1) processed i s h
        refine ⟨by omega, ?_, h3, h4, ?_⟩
        · have he : i - idx = (i - (idx + 1)) + 1 := by omega
          rw [he]
          simpa using h2
        · intro j t hj1 hj2 hjt hjc
          by_cases hji : j = idx
          · subst hji
            rw [hjc] at hc
            cases hc
          · have he : j - idx = (j - (idx + 1)) + 1 := by omega
            rw [he] at hjt
            exact h5 j t (by omega) hj2 (by simpa using hjt) hjc
      · rw [if_neg hc] at h
        by_cases hd : now - createdAt ≥ s0.delay_minutes.getD 0
        · rw [if_pos hd] at h
          injection h with h5
          injection h5 with ha hb
          subst ha
          subst hb
          refine ⟨Nat.le_refl _, by simp, ?_, hd, ?_⟩
          · exact Bool.eq_false_iff.mpr hc
          · intro j t hj1 hj2 _ _
            omega
        · rw [if_neg hd] at h
          obtain ⟨h1, h2, h3, h4, h5⟩ := ih (idx + 1) processed i s h
          refine ⟨by omega, ?_, h3, h4, ?_⟩
          · have he : i - idx = (i - (idx + 1)) + 1 := by omega
            rw [he]
            simpa using h2
          · intro j t hj1 hj2 hjt hjc
            by_cases hji : j = idx
            · subst hji
              simp only [Nat.sub_self, List.getElem?_cons_zero] at hjt
              injection hjt with hjt
              subst hjt
              omega
            · have he : j - idx = (j - (idx + 1)) + 1 := by omega
              rw [he] at hjt
              exact h5 j t (by omega) hj2 (by simpa using hjt) hjc

/-- Every event the service loop appends beyond the initial ledger is
for a step of the policy whose delay had elapsed at the time of the
call. -/
theorem processPolicyLoopS_due (env : Env) (policy : EscalationPolicy) :
    ∀ (fuel : Nat) (processed : List Nat) (st : EngineState),
      ∃ tail, (processPolicyLoopS env policy fuel processed st).ledger =
          st.ledger ++ tail ∧
        ∀ ev ∈ tail, ∃ s, policy.steps[ev.step]? = some s ∧
          env.now - st.incident.created_at ≥ s.delay_minutes.getD 0 := by
  intro fuel
  induction fuel with
  | zero =>
      intro processed st
      exact ⟨[], by simp [processPolicyLoopS], by simp⟩
  | succ fuel ih =>
      intro processed st
      simp only [processPolicyLoopS]
      cases hsel : getCurrentEscalationStep env st.incident policy processed with
      | none => exact ⟨[], by simp, by simp⟩
      | some pr =>
          obtain ⟨ev, hev, hstep, hca⟩ := processStepS_structure env policy pr.1 pr.2 st
          obtain ⟨tail, htail, hdue⟩ :=
            ih (pr.1 :: processed) (processStepS env policy pr.1 pr.2 st)
          refine ⟨ev :: tail, ?_, ?_⟩
          · rw [htail, hev, List.append_assoc]
            rfl
          · intro e he
            cases he with
            | head =>
                obtain ⟨hle, hget, hcon, hd, hmin⟩ :=
                  firstDueStep_eq_some env.now st.incident.created_at policy.steps 0
                    processed pr.1 pr.2
                    (by
                      have : (pr.1, pr.2) = pr := rfl
                      rw [this]
                      exact hsel)
                refine ⟨pr.2, ?_, ?_⟩
                · rw [hstep]
                  simpa using hget
                · exact hd
            | tail _ hmem =>
                obtain ⟨s, hs1, hs2⟩ := hdue e hmem
                exact ⟨s, hs1, by rw [← hca]; exact hs2⟩

theorem notifyLoopT_state (m r : String) (pid : Int) (sidx : Nat) (users : List User) :
    ∀ (st : EngineState) (tu : List TargetUser) (cnt : Nat),
      (notifyLoopT m r pid sidx users st tu cnt).2.ledger = st.ledger ∧
      (notifyLoopT m r pid sidx users st tu cnt).2.incident = st.incident ∧
      (notifyLoopT m r pid sidx users st tu cnt).2.assignments = st.assignments := by
  induction users with
  | nil => intro st tu cnt; exact ⟨rfl, rfl, rfl⟩
  | cons u rest ih =>
      intro st tu cnt
      simp only [notifyLoopT]
      cases hs : should_notify_user st.ledger u.id st.incident.id pid sidx with
      | error e => exact ⟨rfl, rfl, rfl⟩
      | ok b =>
          cases b
          · exact ih _ _ _
          · exact ih _ _ _

theorem recipientLoopT_state (env : Env) (m : String) (pid : Int) (sidx : Nat)
    (rs : List String) :
    ∀ st tf tu cnt, (recipientLoopT env m pid sidx rs st tf tu cnt).2.ledger = st.ledger ∧
      (recipientLoopT env m pid sidx rs st tf tu cnt).2.incident = st.incident ∧
      (recipientLoopT env m pid sidx rs st tf tu cnt).2.assignments = st.assignments := by
  induction rs with
  | nil => intro st tf tu cnt; exact ⟨rfl, rfl, rfl⟩
  | cons r rest ih =>
      intro st tf tu cnt
      have h := notifyLoopT_state m "responder" pid sidx (getEscalationTargets env st r)
        st tu cnt
      simp only [recipientLoopT]
      cases hp : (notifyLoopT m "responder" pid sidx (getEscalationTargets env st r)
          st tu cnt).1 with
      | error e =>
          simp only [hp]
          exact h
      | ok q =>
          simp only [hp]
          have h2 := ih (notifyLoopT m "responder" pid sidx
            (getEscalationTargets env st r) st tu cnt).2 (tf ++ [r]) q.1 q.2
          exact ⟨h2.1.trans h.1, h2.2.1.trans h.2.1, h2.2.2.trans h.2.2⟩

theorem roleLoopT_state (env : Env) (m : String) (pid : Int) (sidx : Nat)
    (rs : List String) :
    ∀ st tf tu cnt, (roleLoopT env m pid sidx rs st tf tu cnt).2.ledger = st.ledger ∧
      (roleLoopT env m pid sidx rs st tf tu cnt).2.incident = st.incident ∧
      (roleLoopT env m pid sidx rs st tf tu cnt).2.assignments = st.assignments := by
  induction rs with
  | nil => intro st tf tu cnt; exact ⟨rfl, rfl, rfl⟩
  | cons r rest ih =>
      intro st tf tu cnt
      have h := notifyLoopT_state m r pid sidx
        (getUsersByRoleAndTeam env r st.incident.team_id) st tu cnt
      simp only [roleLoopT]
      cases hp : (notifyLoopT m r pid sidx
          (getUsersByRoleAndTeam env r st.incident.team_id) st tu cnt).1 with
      | error e =>
          simp only [hp]
          exact h
      | ok q =>
          simp only [hp]
          have h2 := ih (notifyLoopT m r pid sidx
            (getUsersByRoleAndTeam env r st.incident.team_id) st tu cnt).2
            (tf ++ [r]) q.1 q.2
          exact ⟨h2.1.trans h.1, h2.2.1.trans h.2.1, h2.2.2.trans h.2.2⟩

/-- Action dispatch with tracking leaves the ledger untouched and the
incident's creation time unchanged, whether it returns or raises. -/
theorem processActionT_state (env : Env) (st : EngineState) (a : Action)
    (sidx : Nat) (pid : Int) :
    (processActionT env st a sidx pid).2.ledger = st.ledger ∧
    (processActionT env st a sidx pid).2.incident.created_at =
      st.incident.created_at := by
  unfold processActionT
  cases ht : a.type with
  | none => exact ⟨rfl, rfl⟩
  | some t =>
      by_cases h1 : (t == "notify") = true
      · simp only [if_pos h1]
        have h := recipientLoopT_state env
          (a.message.getD ("Incident " ++ toString st.incident.id ++ " requires attention"))
          pid sidx (notifyRecipients a) st [] [] 0
        exact ⟨h.1, congrArg Incident.created_at h.2.1⟩
      simp only [if_neg h1]
      by_cases h2 : pyStartsWith t "notify_" = true
      · simp only [if_pos h2]
        have h := roleLoopT_state env
          ("Escalation: Incident " ++ toString st.incident.id ++ " (" ++
            st.incident.title ++ ") requires " ++
            pyReplace (a.type.getD "") "notify_" "" ++ " attention")
          pid sidx [pyReplace (a.type.getD "") "notify_" ""] st [] [] 0
        exact ⟨h.1, congrArg Incident.created_at h.2.1⟩
      simp only [if_neg h2]
      by_cases h3 : (t == "assign") = true
      · simp only [if_pos h3]
        exact ⟨by trivial, by trivial⟩
      simp only [if_neg h3]
      exact ⟨by trivial, by trivial⟩

theorem runActionsT_state (env : Env) (sidx : Nat) (pid : Int) (actions : List Action) :
    ∀ st tf tu cnt, (runActionsT env sidx pid actions st tf tu cnt).2.ledger = st.ledger ∧
      (runActionsT env sidx pid actions st tf tu cnt).2.incident.created_at =
        st.incident.created_at := by
  induction actions with
  | nil => intro st tf tu cnt; exact ⟨rfl, rfl⟩
  | cons a rest ih =>
      intro st tf tu cnt
      simp only [runActionsT]
      have hp := processActionT_state env st a sidx pid
      cases hc : (processActionT env st a sidx pid).1 with
      | error e =>
          simp only [hc]
          exact hp
      | ok res =>
          simp only [hc]
          have h2 := ih (processActionT env st a sidx pid).2 (tf ++ res.triggered_for)
            (tu ++ res.target_users) (cnt + res.new_notifications)
          exact ⟨h2.1.trans hp.1, h2.2.trans hp.2⟩

/-- When the sweep's step handler returns (rather than propagating the
entry `AttributeError`), it has appended exactly one event, finalized
to `failed`. -/
theorem process_escalation_step_ok (env : Env) (policy : EscalationPolicy)
    (idx : Nat) (step : Step) (st : EngineState) (st' : EngineState)
    (h : process_escalation_step env policy idx step st = Except.ok st') :
    ∃ ev : EscalationEvent, st'.ledger = st.ledger ++ [ev] ∧ ev.step = idx := by
  have hrun := runActionsT_state env idx policy.id step.actions
    { st with ledger := escalationEventCreate st.ledger (pendingEventT env policy idx step st) }
    [] [] 0
  simp only [process_escalation_step] at h
  cases hn : get_notified_users_for_step st.ledger st.incident.id policy.id idx with
  | error e => simp only [hn] at h; cases h
  | ok notified =>
      simp only [hn] at h
      injection h with h5
      refine ⟨finalizeEventT (pendingEventT env policy idx step st)
        (runActionsT env idx policy.id step.actions
          { st with ledger := escalationEventCreate st.ledger (pendingEventT env policy idx step st) }
          [] [] 0).1, ?_, (finalizeEventT_fields _ _).1⟩
      rw [← h5]
      show ((runActionsT env idx policy.id step.actions
          { st with ledger := escalationEventCreate st.ledger (pendingEventT env policy idx step st) }
          [] [] 0).2.ledger.set st.ledger.length _) = _
      rw [hrun.1]
      exact set_append_length st.ledger _ _

/-- The sweep's per-policy processing creates at most one new event per
call. -/
theorem process_policy_escalations_one_step (env : Env) (policy : EscalationPolicy)
    (st st' : EngineState)
    (hok : process_policy_escalations env policy st = Except.ok st') :
    st'.ledger.length ≤ st.ledger.length + 1 := by
  simp only [process_policy_escalations] at hok
  cases hsel : firstDueStep env.now st.incident.created_at policy.steps 0
      (get_processed_escalation_steps st.ledger st.incident.id policy.id) with
  | none =>
      simp only [hsel] at hok
      injection hok with h5
      subst h5
      omega
  | some pr =>
      simp only [hsel] at hok
      obtain ⟨ev, hev, _⟩ := process_escalation_step_ok env policy pr.1 pr.2 st st' hok
      rw [hev]
      simp

/-- The single event the sweep's per-policy processing may create is
for a due step. -/
theorem process_policy_escalations_due (env : Env) (policy : EscalationPolicy)
    (st st' : EngineState) (ev : EscalationEvent)
    (hok : process_policy_escalations env policy st = Except.ok st')
    (h : ev ∈ st'.ledger.drop st.ledger.length) :
    ∃ s, policy.steps[ev.step]? = some s ∧
      env.now - st.incident.created_at ≥ s.delay_minutes.getD 0 := by
  simp only [process_policy_escalations] at hok
  cases hsel : firstDueStep env.now st.incident.created_at policy.steps 0
      (get_processed_escalation_steps st.ledger st.incident.id policy.id) with
  | none =>
      simp only [hsel] at hok
      injection hok with h5
      subst h5
      simp at h
  | some pr =>
      simp only [hsel] at hok
      obtain ⟨e0, hev, hstep⟩ := process_escalation_step_ok env policy pr.1 pr.2 st st' hok
      rw [hev, List.drop_left] at h
      obtain rfl : e0 = ev := by
        cases h with
        | head => rfl
        | tail _ hm => cases hm
      obtain ⟨hle, hget, hcon, hd, hmin⟩ :=
        firstDueStep_eq_some env.now st.incident.created_at policy.steps 0
          (get_processed_escalation_steps st.ledger st.incident.id policy.id) pr.1 pr.2
          (by rw [show (pr.1, pr.2) = pr from rfl]; exact hsel)
      refine ⟨pr.2, ?_, ?_⟩
      · rw [hstep]
        simpa using hget
      · exact hd

/-!  ## Step-selection and failure-semantics claims  -/

/-- A step whose single action has no `type` key, so dispatch raises. -/
def stepFail : Step := { delay_minutes := some 0, actions := [{}] }

def polTwoZero : EscalationPolicy := { id := 1, name := "Z", steps := [stepNotify, stepNotify] }

def envTwoZero : Env := { users := [], policies := [polTwoZero], now := 0 }

def stepD5 : Step := { delay_minutes := some 5, actions := [{ type := some "notify" }] }

def stepD15 : Step := { delay_minutes := some 15, actions := [{ type := some "notify" }] }

def stepD30 : Step := { delay_minutes := some 30, actions := [{ type := some "notify" }] }

/-- The spec's ordering example: delays [5, 15, 30]. -/
def polDelays : EscalationPolicy := { id := 1, name := "D", steps := [stepD5, stepD15, stepD30] }

/-- The incident is 20 minutes old at evaluation time. -/
def envDelays : Env := { users := [], policies := [polDelays], now := 20 }

def polFail : EscalationPolicy := { id := 1, name := "F", steps := [stepFail, stepNotify] }

def envFailStep : Env := { users := [], policies := [polFail], now := 0 }

def polBenign : EscalationPolicy := { id := 2, name := "B", steps := [stepNotify] }

def envTwoPolicies : Env := { users := [], policies := [polFail, polBenign], now := 0 }

/-- C4 as stated is false: one `check_and_escalate_incident` call on a
policy with two zero-delay steps processes both steps (two events, each
finalized `failed` by the `event_metadata` read), not one step per
evaluation call. -/
theorem one_step_per_call_counterexample :
    ((check_and_escalate_incident envTwoZero stFix).ledger.map
        (fun e => (e.step, e.status))) =
      [(0, EventStatus.failed), (1, EventStatus.failed)] := by
  decide

/-- C4 amended: step selection picks the first due, unprocessed step in
ascending index order and never selects a step whose delay has not
elapsed (first conjunct); when the sweep's per-policy pass returns it
has processed at most one step (second); every event either evaluator
creates is for a step whose delay had elapsed (third and fourth); the
service's loop, unlike the sweep, processes every currently-due step in
one call — on the spec's [5, 15, 30] example at age 20 it processes
steps 0 and 1 in ascending order (both events end `failed`, see C8) and
never touches step 2 (last conjunct). -/
theorem step_selection_amended :
    (∀ (env : Env) (inc : Incident) (policy : EscalationPolicy) (processed : List Nat)
       (i : Nat) (s : Step),
       getCurrentEscalationStep env inc policy processed = some (i, s) →
         policy.steps[i]? = some s ∧ processed.contains i = false ∧
         env.now - inc.created_at ≥ s.delay_minutes.getD 0 ∧
         (∀ (j : Nat) (t : Step), j < i → policy.steps[j]? = some t →
            processed.contains j = false →
            env.now - inc.created_at < t.delay_minutes.getD 0)) ∧
    (∀ (env : Env) (policy : EscalationPolicy) (st st' : EngineState),
       process_policy_escalations env policy st = Except.ok st' →
       st'.ledger.length ≤ st.ledger.length + 1) ∧
    (∀ (env : Env) (policy : EscalationPolicy) (st : EngineState) (ev : EscalationEvent),
       ev ∈ (process_escalation_policy env policy st).ledger.drop st.ledger.length →
       ∃ s, policy.steps[ev.step]? = some s ∧
         env.now - st.incident.created_at ≥ s.delay_minutes.getD 0) ∧
    (∀ (env : Env) (policy : EscalationPolicy) (st st' : EngineState) (ev : EscalationEvent),
       process_policy_escalations env policy st = Except.ok st' →
       ev ∈ st'.ledger.drop st.ledger.length →
       ∃ s, policy.steps[ev.step]? = some s ∧
         env.now - st.incident.created_at ≥ s.delay_minutes.getD 0) ∧
    ((check_and_escalate_incident envDelays stFix).ledger.map
        (fun e => (e.step, e.status)) =
      [(0, EventStatus.failed), (1, EventStatus.failed)]) := by
  refine ⟨?_, process_policy_escalations_one_step, ?_,
    fun env policy st st' ev hok h =>
      process_policy_escalations_due env policy st st' ev hok h, by decide⟩
  · intro env inc policy processed i s h
    obtain ⟨_, hget, hcon, hd, hmin⟩ :=
      firstDueStep_eq_some env.now inc.created_at policy.steps 0 processed i s h
    refine ⟨by simpa using hget, hcon, hd, ?_⟩
    intro j t hj hjt hjc
    exact hmin j t (Nat.zero_le j) hj (by simpa using hjt) hjc
  · intro env policy st ev h
    obtain ⟨tail, htail, hdue⟩ :=
      processPolicyLoopS_due env policy (policy.steps.length + 1) [] st
    simp only [process_escalation_policy] at h
    rw [htail, List.drop_left] at h
    exact hdue ev h

theorem step_selection_amended_witness :
    polDelays.steps[0]? = some stepD5 ∧ ([] : List Nat).contains 0 = false ∧
    envDelays.now - incFix.created_at ≥ stepD5.delay_minutes.getD 0 :=
  let h := step_selection_amended.1 envDelays incFix polDelays [] 0 stepD5 rfl
  ⟨h.1, h.2.1, h.2.2.1⟩

/-- C8 as stated is false: after step 0 fails, the service loop adds
the index to its call-local processed set and continues — step 1 of the
*same policy* is processed in the same pass (its event also ends
`failed`, by the `event_metadata` read). -/
theorem failed_step_advance_counterexample :
    ((check_and_escalate_incident envFailStep stFix).ledger.map
        (fun ev => (ev.step, ev.status))) =
      [(0, EventStatus.failed), (1, EventStatus.failed)] := by
  decide

/-- C8 amended: when an action of the selected step raises, the step's
event is finalized to `failed` with the error text in its metadata
(first conjunct) — indeed the service finalizer marks *every* event
`failed`, success path included, because the metadata merge before
`mark_as_completed` reads the nonexistent `event.event_metadata`
attribute (second conjunct); the exception does not propagate — when
the sweep's per-policy pass returns it has processed at most one step
(third), the service continues to later due steps of that policy and to
the next matching policy (fourth conjunct, where policy 2 is still
processed after policy 1's step raised), and on the sweep the failed
step is recorded and the pass returns normally (last conjunct). -/
theorem step_failure_amended :
    (∀ (env : Env) (policy : EscalationPolicy) (idx : Nat) (step : Step)
       (st : EngineState) (e : String) (st2 : EngineState),
       runActionsS env step.actions
           { st with
             ledger := escalationEventCreate st.ledger (pendingEventS env policy idx step st) }
           [] [] = (Except.error e, st2) →
       (processStepS env policy idx step st).ledger[st.ledger.length]? =
         some { pendingEventS env policy idx step st with
                  status := EventStatus.failed
                  metadata_ :=
                    { (pendingEventS env policy idx step st).metadata_ with
                        error := some e } }) ∧
    (∀ (ev : EscalationEvent) (r : Except String (List String × List TargetUser)),
       (finalizeEventS ev r).status = EventStatus.failed) ∧
    (∀ (env : Env) (policy : EscalationPolicy) (st st' : EngineState),
       process_policy_escalations env policy st = Except.ok st' →
       st'.ledger.length ≤ st.ledger.length + 1) ∧
    (((check_and_escalate_incident envTwoPolicies stFix).ledger.filter
        (fun ev => ev.policy_id == 2)).map (fun ev => (ev.step, ev.status)) =
      [(0, EventStatus.failed)]) ∧
    (process_policy_escalations envFailStep polFail stFix =
      Except.ok { incident := incFix,
                  ledger := [{ incident_id := 1, policy_id := 1, step := 0,
                               status := EventStatus.failed,
                               metadata_ := { error := some attrErrStartswith } }],
                  sent := [], assignments := [] }) := by
  have hfail : ∀ (ev : EscalationEvent) (r : Except String (List String × List TargetUser)),
      (finalizeEventS ev r).status = EventStatus.failed := by
    intro ev r
    cases r with
    | ok p => rfl
    | error e => rfl
  refine ⟨?_, hfail, process_policy_escalations_one_step, by decide, by rfl⟩
  intro env policy idx step st e st2 hr
  have hrun := runActionsS_state env step.actions
    { st with ledger := escalationEventCreate st.ledger (pendingEventS env policy idx step st) }
    [] []
  have h1 : (runActionsS env step.actions
      { st with ledger := escalationEventCreate st.ledger (pendingEventS env policy idx step st) }
      [] []).1 = Except.error e := congrArg Prod.fst hr
  have h2 : (runActionsS env step.actions
      { st with ledger := escalationEventCreate st.ledger (pendingEventS env policy idx step st) }
      [] []).2 = st2 := congrArg Prod.snd hr
  have h3 : st2.ledger = st.ledger ++ [pendingEventS env policy idx step st] := by
    rw [← h2]
    exact hrun.1
  simp only [processStepS, h1, h2, h3]
  rw [set_append_length]
  exact getElem?_append_length st.ledger _

theorem step_failure_amended_witness :
    (processStepS envFailStep polFail 0 stepFail stFix).ledger[stFix.ledger.length]? =
      some { pendingEventS envFailStep polFail 0 stepFail stFix with
               status := EventStatus.failed
               metadata_ :=
                 { (pendingEventS envFailStep polFail 0 stepFail stFix).metadata_ with
                     error := some attrErrStartswith } } :=
  step_failure_amended.1 envFailStep polFail 0 stepFail stFix
    attrErrStartswith
    { stFix with
      ledger := escalationEventCreate stFix.ledger (pendingEventS envFailStep polFail 0 stepFail stFix) }
    rfl

end Escalation
